import Mathlib

/-!
Verification of the documentation-consistency checker (`scripts/check_docs.py`).

The checker's text processing is embedded shallowly over `List Char`:

* Python `re.findall` calls are embedded as deterministic left-to-right
  scanners.  Every pattern used by the script (`\.Flags\(\)\.(?:String|Int|
  Bool|Uint64|StringSlice)\("([^"]+)"`, `\.Flags\(\)\.CountP\("([^"]+)",\s*
  "([^"]+)"`, `addMethod\(\s*"([^"]+)"`, the struct pattern
  `type N struct\s*\x7b([^\x7d]+)\x7d` and the field pattern
  `(\w+)\s+([^\s\x60]+)\s*\x60json:"([^"]+)"`) is backtracking-free: each
  quantifier's character class is disjoint from the token that follows it,
  so the greedy scan below computes exactly the regex engine's matches,
  resuming after each match end as `findall` does.
* The character classes `\w` and `\s` and the case functions `str.lower` /
  `str.isupper` are modelled over ASCII, matching their behaviour on the
  ASCII source and documentation files the script processes.
* Python `set` values are modelled as `Finset` (via `List.toFinset` of the
  match list); `dict` values as association lists with Python's
  update-in-place-or-append semantics; the filesystem as an association
  list from path to content; `sys.exit` codes as the returned `Nat`.
-/

namespace CheckDocs

/-- Characters matched by Python's ASCII `\s` class. -/
def isSpaceCh (c : Char) : Bool :=
  c = ' ' || c = '\t' || c = '\n' || c = '\r' || c = '\x0b' || c = '\x0c'

/-- Characters matched by Python's `\w` class (ASCII model). -/
def isWordCh (c : Char) : Bool :=
  ('a' ≤ c && c ≤ 'z') || ('A' ≤ c && c ≤ 'Z') || ('0' ≤ c && c ≤ '9') || c = '_'

/-- ASCII model of Python's `str.isupper` on a single character. -/
def isUpperCh (c : Char) : Bool :=
  65 ≤ c.toNat && c.toNat ≤ 90

/-- ASCII model of Python's `str.lower` on a single character. -/
def lowerCh (c : Char) : Char :=
  if isUpperCh c then Char.ofNat (c.toNat + 32) else c

/-- ASCII model of Python's `str.lower`. -/
def lowerL (l : List Char) : List Char := l.map lowerCh

/-- Python's substring operator `needle in hay`. -/
def containsSub (needle hay : List Char) : Bool :=
  decide (needle <:+: hay)

/-- Match a literal at the head of the input, returning the remainder. -/
def dropLit : List Char → List Char → Option (List Char)
  | [], cs => some cs
  | _ :: _, [] => none
  | p :: ps, c :: cs => if c = p then dropLit ps cs else none

/-- Regex fragment `([^"]+)"`: greedily capture one or more non-quote
characters, then consume the closing quote. -/
def takeCapture (l : List Char) : Option (List Char × List Char) :=
  match l.dropWhile (fun c => c != '\x22') with
  | [] => none
  | _ :: rest =>
    let cap := l.takeWhile (fun c => c != '\x22')
    if cap.isEmpty then none else some (cap, rest)

/-- Fuelled engine for `re.findall`: at each position try a match; on
success emit the capture and resume after the match end, otherwise advance
one character. -/
def scanF (f : List Char → Option (α × List Char)) : Nat → List Char → List α
  | 0, _ => []
  | _ + 1, [] => []
  | fuel + 1, c :: cs =>
    match f (c :: cs) with
    | some (s, r) => s :: scanF f fuel r
    | none => scanF f fuel cs

/-- `re.findall` over a whole text. -/
def scanAll (f : List Char → Option (α × List Char)) (l : List Char) : List α :=
  scanF f l.length l

/-- `re.search`: return the result of the leftmost position where the
matcher succeeds. -/
def findG (f : List Char → Option α) : List Char → Option α
  | [] => none
  | c :: cs =>
    match f (c :: cs) with
    | some x => some x
    | none => findG f cs

/-- Association-list model of a Python `dict`: overwrite in place if the
key is present, append otherwise. -/
def dictInsert (k : List Char) (v : List Char) :
    List (List Char × List Char) → List (List Char × List Char)
  | [] => [(k, v)]
  | (k', v') :: t => if k' = k then (k, v) :: t else (k', v') :: dictInsert k v t

/-- Dictionary lookup. -/
def dictLookup (k : List Char) : List (List Char × List Char) → Option (List Char)
  | [] => none
  | (k', v') :: t => if k' = k then some v' else dictLookup k t

/-- Insert a list of key-value pairs in order (a sequence of
`fields[key] = value` statements). -/
def insertAll (kvs : List (List Char × List Char)) (d : List (List Char × List Char)) :
    List (List Char × List Char) :=
  kvs.foldl (fun a kv => dictInsert kv.1 kv.2 a) d

/-! ## Flag extractor (`DocChecker._extract_flags_from_file`) -/

/-- The literal `.Flags().`. -/
def flagsPrefixLit : List Char := ['.', 'F', 'l', 'a', 'g', 's', '(', ')', '.']

/-- The setter name `String`. -/
def setStr : List Char := ['S', 't', 'r', 'i', 'n', 'g']

/-- The setter name `Int`. -/
def setInt : List Char := ['I', 'n', 't']

/-- The setter name `Bool`. -/
def setBool : List Char := ['B', 'o', 'o', 'l']

/-- The setter name `Uint64`. -/
def setUint : List Char := ['U', 'i', 'n', 't', '6', '4']

/-- The setter name `StringSlice`. -/
def setStrSlice : List Char :=
  ['S', 't', 'r', 'i', 'n', 'g', 'S', 'l', 'i', 'c', 'e']

/-- The typed-setter alternatives, in the pattern's alternation order. -/
def flagSetters : List (List Char) :=
  [setStr, setInt, setBool, setUint, setStrSlice]

/-- One alternative of the first flag pattern:
`\.Flags\(\).<setter>\("([^"]+)"`. -/
def trySetter (setter : List Char) (l : List Char) : Option (List Char × List Char) :=
  match dropLit (flagsPrefixLit ++ setter ++ ['(', '\x22']) l with
  | some r => takeCapture r
  | none => none

/-- The first flag pattern
`\.Flags\(\)\.(?:String|Int|Bool|Uint64|StringSlice)\("([^"]+)"`,
alternatives tried in order. -/
def tryFlagTyped (l : List Char) : Option (List Char × List Char) :=
  flagSetters.findSome? (fun s => trySetter s l)

/-- The literal `.Flags().CountP("`. -/
def countPLit : List Char :=
  flagsPrefixLit ++ ['C', 'o', 'u', 'n', 't', 'P', '(', '\x22']

/-- The second flag pattern `\.Flags\(\)\.CountP\("([^"]+)",\s*"([^"]+)"`;
only the long name (first capture) is kept, matching
`flags.add(match[0])`. -/
def tryCountP (l : List Char) : Option (List Char × List Char) :=
  match dropLit countPLit l with
  | none => none
  | some r1 =>
    match takeCapture r1 with
    | none => none
    | some (long, r2) =>
      match r2 with
      | [] => none
      | c :: r3 =>
        if c = ',' then
          match r3.dropWhile isSpaceCh with
          | [] => none
          | c' :: r5 =>
            if c' = '\x22' then
              match takeCapture r5 with
              | none => none
              | some (_, r6) => some (long, r6)
            else none
        else none

/-- All matches of the two flag patterns, first pattern's pass first,
as inserted into the Python `set`. -/
def flagMatches (content : List Char) : List (List Char) :=
  scanAll tryFlagTyped content ++ scanAll tryCountP content

/-- The `set` of flags returned by `_extract_flags_from_file` for readable
content. -/
def extractFlags (content : List Char) : Finset (List Char) :=
  (flagMatches content).toFinset

/-! ## Cheatcode extractor (`DocChecker._extract_cheatcodes`) -/

/-- The literal `addMethod(`. -/
def addMethodLit : List Char := ['a', 'd', 'd', 'M', 'e', 't', 'h', 'o', 'd', '(']

/-- The cheatcode pattern `addMethod\(\s*"([^"]+)"`. -/
def tryAddMethod (l : List Char) : Option (List Char × List Char) :=
  match dropLit addMethodLit l with
  | none => none
  | some r1 =>
    match r1.dropWhile isSpaceCh with
    | [] => none
    | c :: r2 => if c = '\x22' then takeCapture r2 else none

/-- All registration strings matched in one text. -/
def cheatcodeMatches (content : List Char) : List (List Char) :=
  scanAll tryAddMethod content

/-- The `set` of registration strings (`cheatcodes` in
`_extract_cheatcodes`). -/
def extractCheatcodesSet (content : List Char) : Finset (List Char) :=
  (cheatcodeMatches content).toFinset

/-- `cheatcode.split("(")[0]`: the base method name. -/
def baseName (s : List Char) : List Char :=
  s.takeWhile (fun c => c != '(')

/-- The deduplicated base-name set built in `check_cheatcodes`. -/
def baseMethodSet (content : List Char) : Finset (List Char) :=
  (extractCheatcodesSet content).image baseName

/-! ## Config-field extractor (`DocChecker._extract_config_fields`) -/

/-- The literal `type ` (struct pattern head). -/
def typeLit : List Char := ['t', 'y', 'p', 'e', ' ']

/-- The literal ` struct` (struct pattern middle). -/
def structLit : List Char := [' ', 's', 't', 'r', 'u', 'c', 't']

/-- One attempt of the struct pattern
`type <name> struct\s*\x7b([^\x7d]+)\x7d`, returning the struct body. -/
def tryStruct (name : List Char) (l : List Char) : Option (List Char) :=
  match dropLit (typeLit ++ name ++ structLit) l with
  | none => none
  | some r1 =>
    match r1.dropWhile isSpaceCh with
    | [] => none
    | c :: r2 =>
      if c = '\x7b' then
        match r2.dropWhile (fun c => c != '\x7d') with
        | [] => none
        | _ :: _ =>
          let body := r2.takeWhile (fun c => c != '\x7d')
          if body.isEmpty then none else some body
      else none

/-- `re.search` for the struct definition block. -/
def findStruct (content name : List Char) : Option (List Char) :=
  findG (tryStruct name) content

/-- The literal `json:"`. -/
def jsonLit : List Char := ['j', 's', 'o', 'n', ':', '\x22']

/-- The field pattern `(\w+)\s+([^\s\x60]+)\s*\x60json:"([^"]+)"`,
capturing Go field name, declared type and raw json tag. -/
def tryField (l : List Char) : Option ((List Char × List Char × List Char) × List Char) :=
  let goName := l.takeWhile isWordCh
  if goName.isEmpty then none else
  let r1 := l.dropWhile isWordCh
  if (r1.takeWhile isSpaceCh).isEmpty then none else
  let r2 := r1.dropWhile isSpaceCh
  let ty := r2.takeWhile (fun c => !(isSpaceCh c) && c != '\x60')
  if ty.isEmpty then none else
  let r3 := r2.dropWhile (fun c => !(isSpaceCh c) && c != '\x60')
  match r3.dropWhile isSpaceCh with
  | [] => none
  | c :: r5 =>
    if c = '\x60' then
      match dropLit jsonLit r5 with
      | none => none
      | some r6 =>
        match takeCapture r6 with
        | none => none
        | some (tag, r7) => some ((goName, ty, tag), r7)
    else none

/-- All field matches inside one struct body. -/
def scanFields (body : List Char) : List (List Char × List Char × List Char) :=
  scanAll tryField body

/-- The substring `,omitempty` tested by
`if ',omitempty' in json_field_name`. -/
def omitemptyLit : List Char :=
  [',', 'o', 'm', 'i', 't', 'e', 'm', 'p', 't', 'y']

/-- The hardcoded nested-config type names. -/
def nestedTypeNames : List (List Char) :=
  ["TestingConfig".data, "CheatCodeConfig".data, "ForkConfig".data]

/-- The suffix `Config`. -/
def configSuffixLit : List Char := ['C', 'o', 'n', 'f', 'i', 'g']

/-- `field_type.endswith('Config') or field_type in [...]`. -/
def isNestedType (ty : List Char) : Bool :=
  decide (configSuffixLit <:+ ty) || nestedTypeNames.contains ty

/-- Python's `name[0].isupper()` (the matched name is never empty). -/
def headIsUpper : List Char → Bool
  | [] => false
  | c :: _ => isUpperCh c

/-- The per-field filtering of `_extract_config_fields`: skip unexported
fields, fields whose tag contains `,omitempty`, and nested-config types;
otherwise produce the mapping entry `fields[json_field_name] = struct`. -/
def processField (structName : List Char) (m : List Char × List Char × List Char) :
    Option (List Char × List Char) :=
  if !headIsUpper m.1 then none
  else if containsSub omitemptyLit m.2.2 then none
  else if isNestedType m.2.1 then none
  else some (m.2.2.takeWhile (fun c => c != ','), structName)

/-- The mapping entries contributed by one struct body, in match order. -/
def structEntries (structName body : List Char) : List (List Char × List Char) :=
  (scanFields body).filterMap (processField structName)

/-- The entries contributed by one requested struct name: a struct whose
definition block is not found contributes nothing. -/
def structKVs (content name : List Char) : List (List Char × List Char) :=
  match findStruct content name with
  | none => []
  | some body => structEntries name body

/-- `_extract_config_fields` over readable content: the `fields` dict after
processing the requested struct names in order. -/
def extractConfigFields (content : List Char) (names : List (List Char)) :
    List (List Char × List Char) :=
  names.foldl (fun acc nm => insertAll (structKVs content nm) acc) []

/-! ## Presence tests and validators -/

/-- The backtick character. -/
def btickCh : Char := '\x60'

/-- `f"\x60{name}\x60"`: the name enclosed in backticks. -/
def btick (name : List Char) : List Char := btickCh :: name ++ [btickCh]

/-- The flag presence test of `_validate_flags_documented`:
`f"--{flag}" in doc_content or f"\x60{flag}\x60" in doc_content`. -/
def flagPresent (flag doc : List Char) : Bool :=
  containsSub ('-' :: '-' :: flag) doc || containsSub (btick flag) doc

/-- The literal `function `. -/
def functionLit : List Char := ['f', 'u', 'n', 'c', 't', 'i', 'o', 'n', ' ']

/-- The cheatcode presence test: `f"function {method_name}(" in
interface_content`. -/
def methodPresent (name doc : List Char) : Bool :=
  containsSub (functionLit ++ name ++ ['(']) doc

/-- The literal `## `. -/
def headingLit : List Char := ['#', '#', ' ']

/-- The config-field presence test of `_validate_config_fields_documented`:
`f"\x60{field_name}\x60" in doc_content or f"## {field_name}" in
doc_content.lower()`.  Note the needle of the second test is NOT
lowercased. -/
def configFieldPresent (name doc : List Char) : Bool :=
  containsSub (btick name) doc || containsSub (headingLit ++ name) (lowerL doc)

/-- The diagnostics the checker can append, one constructor per f-string
template in the script. -/
inductive Diag where
  | srcNotFound (path : List Char)
  | docNotFound (path : List Char)
  | flagUndocumented (flag command docFile : List Char)
  | cheatSrcNotFound
  | cheatDocNotFound
  | cheatcodeUndocumented (name : List Char)
  | configSrcNotFound (path : List Char)
  | configDocNotFound (path : List Char)
  | configUndocumented (field structName docFile : List Char)
  deriving DecidableEq

/-- The mutable accumulator of `DocChecker`: `self.errors` and
`self.warnings`, append-only. -/
structure St where
  errors : List Diag
  warnings : List Diag
  deriving DecidableEq

/-- Filesystem model: association list from path to text content. -/
def FS := List (List Char × List Char)

/-- `path.exists()` / `path.read_text()` combined. -/
def readFS (fs : FS) (path : List Char) : Option (List Char) :=
  dictLookup path fs

/-- `_extract_flags_from_file`: missing source file appends an Error and
yields no flags; otherwise the deduplicated matches are returned (the
Python `set`, here as a list for iteration). -/
def extractFlagsFromFile (fs : FS) (path : List Char) (st : St) :
    List (List Char) × St :=
  match readFS fs path with
  | none => ([], { st with errors := st.errors ++ [Diag.srcNotFound path] })
  | some content => ((flagMatches content).dedup, st)

/-- The fixed cheatcode source path. -/
def cheatSrcPath : List Char := "chain/standard_cheat_code_contract.go".data

/-- `_extract_cheatcodes` with the filesystem explicit. -/
def extractCheatcodesFromFS (fs : FS) (st : St) : List (List Char) × St :=
  match readFS fs cheatSrcPath with
  | none => ([], { st with errors := st.errors ++ [Diag.cheatSrcNotFound] })
  | some content => ((cheatcodeMatches content).dedup, st)

/-- `_extract_config_fields` with the filesystem explicit: a missing
source file appends a Warning (not an Error) and yields no fields. -/
def extractConfigFieldsFromFS (fs : FS) (path : List Char)
    (names : List (List Char)) (st : St) : List (List Char × List Char) × St :=
  match readFS fs path with
  | none => ([], { st with warnings := st.warnings ++ [Diag.configSrcNotFound path] })
  | some content => (extractConfigFields content names, st)

/-- The per-flag Error diagnostics produced against one document text. -/
def missingFlagDiags (flags : List (List Char)) (doc command docFile : List Char) :
    List Diag :=
  (flags.filter (fun f => !flagPresent f doc)).map
    (fun f => Diag.flagUndocumented f command docFile)

/-- `_validate_flags_documented`. -/
def validateFlagsDocumented (fs : FS) (flags : List (List Char))
    (command docFile : List Char) (st : St) : St :=
  match readFS fs docFile with
  | none => { st with errors := st.errors ++ [Diag.docNotFound docFile] }
  | some doc =>
    { st with errors := st.errors ++ missingFlagDiags flags doc command docFile }

/-- `_validate_cheatcodes_in_interface`; the interface path is fixed. -/
def cheatDocPath : List Char := "docs/src/cheatcodes/cheatcodes_overview.md".data

/-- The per-method Error diagnostics produced against one document text. -/
def missingMethodDiags (bases : List (List Char)) (doc : List Char) : List Diag :=
  (bases.filter (fun m => !methodPresent m doc)).map
    (fun m => Diag.cheatcodeUndocumented m)

/-- `_validate_cheatcodes_in_interface`. -/
def validateCheatcodes (fs : FS) (bases : List (List Char)) (st : St) : St :=
  match readFS fs cheatDocPath with
  | none => { st with errors := st.errors ++ [Diag.cheatDocNotFound] }
  | some doc =>
    { st with errors := st.errors ++ missingMethodDiags bases doc }

/-- `_validate_config_fields_documented`, iterating the dict in insertion
order. -/
def missingConfigDiags (fields : List (List Char × List Char))
    (doc docFile : List Char) : List Diag :=
  (fields.filter (fun kv => !configFieldPresent kv.1 doc)).map
    (fun kv => Diag.configUndocumented kv.1 kv.2 docFile)

/-- `_validate_config_fields_documented`. -/
def validateConfigFields (fs : FS) (fields : List (List Char × List Char))
    (docFile : List Char) (st : St) : St :=
  match readFS fs docFile with
  | none => { st with errors := st.errors ++ [Diag.configDocNotFound docFile] }
  | some doc =>
    { st with errors := st.errors ++ missingConfigDiags fields doc docFile }

/-- The hardcoded `config_mappings` table of `check_config_fields`. -/
def configMappings : List (List Char × List (List Char) × List Char) :=
  [("fuzzing/config/config.go".data,
    ["FuzzingConfig".data],
    "docs/src/project_configuration/fuzzing_config.md".data),
   ("fuzzing/config/config.go".data,
    ["TestingConfig".data, "AssertionTestingConfig".data,
     "PropertyTestingConfig".data, "OptimizationTestingConfig".data],
    "docs/src/project_configuration/testing_config.md".data),
   ("chain/config/config.go".data,
    ["TestChainConfig".data, "CheatCodeConfig".data, "ForkConfig".data],
    "docs/src/project_configuration/chain_config.md".data),
   ("compilation/compilation_config.go".data,
    ["CompilationConfig".data],
    "docs/src/project_configuration/compilation_config.md".data),
   ("fuzzing/config/config.go".data,
    ["LoggingConfig".data],
    "docs/src/project_configuration/logging_config.md".data)]

/-- `check_config_fields`: for each mapping, extract, and validate only
when the extracted dict is non-empty (`if fields:`). -/
def checkConfigFields (fs : FS) (st : St) : St :=
  configMappings.foldl
    (fun s m =>
      let (fields, s') := extractConfigFieldsFromFS fs m.1 m.2.1 s
      if fields.isEmpty then s' else validateConfigFields fs fields m.2.2 s')
    st

/-- `DocChecker.report`: exit code 1 when `self.errors` is non-empty,
exit code 0 otherwise; warnings are only printed. -/
def reportExitCode (st : St) : Nat :=
  if st.errors.isEmpty then 0 else 1

/-! ## Basic lemmas about the text primitives -/

lemma dropLit_eq_some {lit l r : List Char} :
    dropLit lit l = some r ↔ l = lit ++ r := by
  induction lit generalizing l with
  | nil => simp [dropLit]
  | cons p ps ih =>
    cases l with
    | nil => simp [dropLit]
    | cons c cs =>
      by_cases h : c = p
      · subst h
        simp [dropLit, ih]
      · simp [dropLit, h, Ne.symm h]

lemma dropLit_self (lit r : List Char) : dropLit lit (lit ++ r) = some r :=
  dropLit_eq_some.mpr rfl

lemma takeWhile_app {p : Char → Bool} {xs : List Char} {y : Char} {ys : List Char}
    (h : ∀ c ∈ xs, p c = true) (hy : p y = false) :
    (xs ++ y :: ys).takeWhile p = xs := by
  induction xs with
  | nil => simp [List.takeWhile_cons, hy]
  | cons a t ih =>
    have ha := h a (List.mem_cons_self a t)
    have ht := ih (fun c hc => h c (List.mem_cons_of_mem a hc))
    simp [List.takeWhile_cons, ha, ht]

lemma dropWhile_app {p : Char → Bool} {xs : List Char} {y : Char} {ys : List Char}
    (h : ∀ c ∈ xs, p c = true) (hy : p y = false) :
    (xs ++ y :: ys).dropWhile p = y :: ys := by
  induction xs with
  | nil => simp [List.dropWhile_cons, hy]
  | cons a t ih =>
    have ha := h a (List.mem_cons_self a t)
    have ht := ih (fun c hc => h c (List.mem_cons_of_mem a hc))
    simp [List.dropWhile_cons, ha, ht]

lemma length_dropWhile_le (p : Char → Bool) (l : List Char) :
    (l.dropWhile p).length ≤ l.length := by
  induction l with
  | nil => simp
  | cons a t ih =>
    rw [List.dropWhile_cons]
    by_cases h : p a = true
    · simp only [h, if_true]
      exact Nat.le_succ_of_le ih
    · simp [h]

lemma takeCapture_append {cap rest : List Char} (hne : cap ≠ [])
    (hq : ∀ c ∈ cap, c ≠ '\x22') :
    takeCapture (cap ++ '\x22' :: rest) = some (cap, rest) := by
  have hq' : ∀ c ∈ cap, (c != '\x22') = true := by
    intro c hc
    simp [hq c hc]
  unfold takeCapture
  rw [dropWhile_app hq' (by decide), takeWhile_app hq' (by decide)]
  simp [hne]

lemma dropWhile_head_not {p : Char → Bool} {l : List Char} {d : Char} {ds : List Char}
    (h : l.dropWhile p = d :: ds) : p d = false := by
  induction l with
  | nil => simp at h
  | cons a t ih =>
    rw [List.dropWhile_cons] at h
    by_cases hp : p a = true
    · rw [if_pos hp] at h
      exact ih h
    · rw [if_neg hp] at h
      injection h with h1 _
      rw [← h1]
      simpa using hp

lemma takeCapture_some {l : List Char} {cap rest : List Char}
    (h : takeCapture l = some (cap, rest)) :
    l = cap ++ '\x22' :: rest ∧ cap ≠ [] ∧ ∀ c ∈ cap, c ≠ '\x22' := by
  unfold takeCapture at h
  cases hd : l.dropWhile (fun c => c != '\x22') with
  | nil => rw [hd] at h; exact absurd h (by simp)
  | cons d ds =>
    rw [hd] at h
    dsimp only at h
    by_cases he : (l.takeWhile (fun c => c != '\x22')).isEmpty
    · rw [if_pos he] at h
      exact absurd h (by simp)
    · rw [if_neg he] at h
      obtain ⟨hcap, hrest⟩ : l.takeWhile (fun c => c != '\x22') = cap ∧ ds = rest := by
        constructor <;> injection h with h1 <;> · injection h1
      have hdq : d = '\x22' := by
        have := dropWhile_head_not hd
        simpa using this
      refine ⟨?_, ?_, ?_⟩
      · have := List.takeWhile_append_dropWhile (p := fun c => c != '\x22') (l := l)
        rw [hd, hcap, hdq, hrest] at this
        exact this.symm
      · intro hc
        rw [hc] at hcap
        rw [hcap] at he
        simp at he
      · intro c hc
        rw [← hcap] at hc
        have := List.mem_takeWhile_imp hc
        simpa using this

lemma takeCapture_shrink {l : List Char} {cap rest : List Char}
    (h : takeCapture l = some (cap, rest)) : rest.length < l.length := by
  obtain ⟨hl, hne, -⟩ := takeCapture_some h
  rw [hl]
  simp only [List.length_append, List.length_cons]
  omega

/-! ## Step lemmas for the findall engine -/

/-- A matcher consumes at least one character. -/
def Shrinking (f : List Char → Option (α × List Char)) : Prop :=
  ∀ l s r, f l = some (s, r) → r.length < l.length

lemma scanF_succ_cons (f : List Char → Option (α × List Char)) (fuel : Nat)
    (c : Char) (cs : List Char) :
    scanF f (fuel + 1) (c :: cs) =
      match f (c :: cs) with
      | some (s, r) => s :: scanF f fuel r
      | none => scanF f fuel cs := rfl

lemma scanF_congr {f : List Char → Option (α × List Char)} (hf : Shrinking f) :
    ∀ fuel fuel' l, l.length ≤ fuel → l.length ≤ fuel' →
      scanF f fuel l = scanF f fuel' l := by
  intro fuel
  induction fuel with
  | zero =>
    intro fuel' l hl _
    have : l = [] := List.length_eq_zero.mp (Nat.le_zero.mp hl)
    subst this
    cases fuel' <;> simp [scanF]
  | succ n ih =>
    intro fuel' l hl hl'
    cases l with
    | nil => cases fuel' <;> simp [scanF]
    | cons c cs =>
      cases fuel' with
      | zero => simp at hl'
      | succ m =>
        rw [scanF_succ_cons f n c cs, scanF_succ_cons f m c cs]
        simp only [List.length_cons] at hl hl'
        cases hfc : f (c :: cs) with
        | none =>
          show scanF f n cs = scanF f m cs
          exact ih m cs (by omega) (by omega)
        | some p =>
          obtain ⟨s, r⟩ := p
          have hr := hf _ _ _ hfc
          simp only [List.length_cons] at hr
          show s :: scanF f n r = s :: scanF f m r
          rw [ih m r (by omega) (by omega)]

lemma scanAll_skip {f : List Char → Option (α × List Char)} {c : Char}
    {cs : List Char} (h : f (c :: cs) = none) :
    scanAll f (c :: cs) = scanAll f cs := by
  unfold scanAll
  simp [scanF, h]

lemma scanAll_match {f : List Char → Option (α × List Char)} (hf : Shrinking f)
    {l : List Char} {s : α} {r : List Char} (h : f l = some (s, r)) :
    scanAll f l = s :: scanAll f r := by
  cases l with
  | nil =>
    have := hf _ _ _ h
    simp at this
  | cons c cs =>
    unfold scanAll
    rw [List.length_cons, scanF_succ_cons f cs.length c cs, h]
    have hr := hf _ _ _ h
    simp only [List.length_cons] at hr
    show s :: scanF f cs.length r = s :: scanF f r.length r
    rw [scanF_congr hf cs.length r.length r (by omega) (le_refl _)]

lemma scanF_forall {f : List Char → Option (α × List Char)} {P : α → Prop}
    (hP : ∀ l s r, f l = some (s, r) → P s) :
    ∀ fuel l s, s ∈ scanF f fuel l → P s := by
  intro fuel
  induction fuel with
  | zero => intro l s hs; simp [scanF] at hs
  | succ n ih =>
    intro l s hs
    cases l with
    | nil => simp [scanF] at hs
    | cons c cs =>
      rw [scanF_succ_cons f n c cs] at hs
      cases hfc : f (c :: cs) with
      | none =>
        rw [hfc] at hs
        exact ih _ _ hs
      | some p =>
        obtain ⟨a, r⟩ := p
        rw [hfc] at hs
        simp only [List.mem_cons] at hs
        rcases hs with rfl | hs
        · exact hP _ _ _ hfc
        · exact ih _ _ hs

lemma scanAll_forall {f : List Char → Option (α × List Char)} {P : α → Prop}
    (hP : ∀ l s r, f l = some (s, r) → P s) {l : List Char} {s : α}
    (hs : s ∈ scanAll f l) : P s :=
  scanF_forall hP _ _ _ hs

lemma findSome?_mem {l : List β} {f : β → Option α} {a : α}
    (h : l.findSome? f = some a) : ∃ b ∈ l, f b = some a := by
  induction l with
  | nil => simp [List.findSome?] at h
  | cons x t ih =>
    rw [List.findSome?_cons] at h
    cases hx : f x with
    | some y =>
      rw [hx] at h
      have hy : some y = some a := h
      exact ⟨x, List.mem_cons_self x t, by rw [hx, hy]⟩
    | none =>
      rw [hx] at h
      have ht : List.findSome? f t = some a := h
      obtain ⟨b, hb, hfb⟩ := ih ht
      exact ⟨b, List.mem_cons_of_mem x hb, hfb⟩

/-! ## Dictionary lemmas -/

lemma mem_dictInsert {a b k v : List Char} {d : List (List Char × List Char)}
    (h : (a, b) ∈ dictInsert k v d) : (a, b) = (k, v) ∨ (a, b) ∈ d := by
  induction d with
  | nil => simpa [dictInsert] using h
  | cons kv t ih =>
    obtain ⟨k', v'⟩ := kv
    rw [dictInsert] at h
    by_cases hk : k' = k
    · rw [if_pos hk] at h
      rcases List.mem_cons.mp h with h | h
      · exact Or.inl h
      · exact Or.inr (List.mem_cons_of_mem _ h)
    · rw [if_neg hk] at h
      rcases List.mem_cons.mp h with h | h
      · exact Or.inr (List.mem_cons.mpr (Or.inl h))
      · rcases ih h with h | h
        · exact Or.inl h
        · exact Or.inr (List.mem_cons_of_mem _ h)

lemma mem_insertAll {a b : List Char} {kvs d : List (List Char × List Char)}
    (h : (a, b) ∈ insertAll kvs d) : (a, b) ∈ kvs ∨ (a, b) ∈ d := by
  induction kvs generalizing d with
  | nil => exact Or.inr h
  | cons kv t ih =>
    rw [insertAll] at h
    simp only [List.foldl_cons] at h
    rcases ih (d := dictInsert kv.1 kv.2 d) h with h | h
    · exact Or.inl (List.mem_cons_of_mem _ h)
    · rcases mem_dictInsert h with h | h
      · exact Or.inl (List.mem_cons.mpr (Or.inl (by rw [h])))
      · exact Or.inr h

lemma dictLookup_dictInsert_self {k v : List Char} {d : List (List Char × List Char)} :
    dictLookup k (dictInsert k v d) = some v := by
  induction d with
  | nil => simp [dictInsert, dictLookup]
  | cons kv t ih =>
    obtain ⟨k', v'⟩ := kv
    rw [dictInsert]
    by_cases hk : k' = k
    · rw [if_pos hk, dictLookup, if_pos rfl]
    · rw [if_neg hk, dictLookup, if_neg hk]
      exact ih

lemma dictLookup_dictInsert_ne {k k' v : List Char} {d : List (List Char × List Char)}
    (h : k' ≠ k) : dictLookup k (dictInsert k' v d) = dictLookup k d := by
  induction d with
  | nil => simp [dictInsert, dictLookup, h]
  | cons kv t ih =>
    obtain ⟨a, b⟩ := kv
    rw [dictInsert]
    by_cases ha : a = k'
    · rw [if_pos ha, dictLookup, if_neg h, dictLookup, if_neg (ha ▸ h)]
    · rw [if_neg ha, dictLookup, dictLookup]
      by_cases hak : a = k
      · rw [if_pos hak, if_pos hak]
      · rw [if_neg hak, if_neg hak]
        exact ih

lemma dictLookup_insertAll_not_mem {k : List Char}
    {kvs d : List (List Char × List Char)} (h : ∀ kv ∈ kvs, kv.1 ≠ k) :
    dictLookup k (insertAll kvs d) = dictLookup k d := by
  induction kvs generalizing d with
  | nil => rfl
  | cons kv t ih =>
    rw [insertAll]
    simp only [List.foldl_cons]
    rw [show t.foldl (fun a kv => dictInsert kv.1 kv.2 a) (dictInsert kv.1 kv.2 d) =
          insertAll t (dictInsert kv.1 kv.2 d) from rfl]
    rw [ih (fun x hx => h x (List.mem_cons_of_mem _ hx))]
    exact dictLookup_dictInsert_ne (h kv (List.mem_cons_self _ _))

lemma dictLookup_insertAll_const {k c : List Char}
    {kvs d : List (List Char × List Char)} (hall : ∀ kv ∈ kvs, kv.2 = c)
    (hk : ∃ kv ∈ kvs, kv.1 = k) : dictLookup k (insertAll kvs d) = some c := by
  induction kvs generalizing d with
  | nil => obtain ⟨kv, h, -⟩ := hk; simp at h
  | cons kv t ih =>
    rw [insertAll]
    simp only [List.foldl_cons]
    rw [show t.foldl (fun a kv => dictInsert kv.1 kv.2 a) (dictInsert kv.1 kv.2 d) =
          insertAll t (dictInsert kv.1 kv.2 d) from rfl]
    by_cases ht : ∃ x ∈ t, x.1 = k
    · exact ih (fun x hx => hall x (List.mem_cons_of_mem _ hx)) ht
    · have hkv : kv.1 = k := by
        obtain ⟨x, hx, hxk⟩ := hk
        rcases List.mem_cons.mp hx with rfl | hx
        · exact hxk
        · exact absurd ⟨x, hx, hxk⟩ ht
      rw [dictLookup_insertAll_not_mem (by push_neg at ht; exact ht)]
      rw [hkv, hall kv (List.mem_cons_self _ _)]
      exact dictLookup_dictInsert_self

lemma keys_dictInsert_subset {x k v : List Char} {d : List (List Char × List Char)}
    (h : x ∈ (dictInsert k v d).map Prod.fst) : x = k ∨ x ∈ d.map Prod.fst := by
  simp only [List.mem_map] at h
  obtain ⟨⟨a, b⟩, hab, rfl⟩ := h
  rcases mem_dictInsert hab with h | h
  · exact Or.inl (congrArg Prod.fst h)
  · exact Or.inr (List.mem_map.mpr ⟨(a, b), h, rfl⟩)

lemma keysNodup_dictInsert {k v : List Char} {d : List (List Char × List Char)}
    (h : (d.map Prod.fst).Nodup) : ((dictInsert k v d).map Prod.fst).Nodup := by
  induction d with
  | nil => simp [dictInsert]
  | cons kv t ih =>
    obtain ⟨a, b⟩ := kv
    rw [dictInsert]
    by_cases ha : a = k
    · subst ha
      rw [if_pos rfl]
      simpa using h
    · rw [if_neg ha]
      simp only [List.map_cons, List.nodup_cons] at h ⊢
      refine ⟨?_, ih h.2⟩
      intro hmem
      rcases keys_dictInsert_subset hmem with h' | hmem'
      · exact ha h'
      · exact h.1 hmem' 



/-! ## Character-case lemmas -/

lemma lowerCh_not_upper (c : Char) : isUpperCh (lowerCh c) = false := by
  unfold lowerCh
  by_cases h : isUpperCh c = true
  · rw [if_pos h]
    unfold isUpperCh at h ⊢
    simp only [Bool.and_eq_true, decide_eq_true_eq] at h
    have hv : (c.toNat + 32).isValidChar := by
      left
      omega
    have hn : (Char.ofNat (c.toNat + 32)).toNat = c.toNat + 32 := by
      rw [Char.ofNat, dif_pos hv]
      rfl
    rw [hn]
    simp
    omega
  · rw [if_neg h]
    simpa using h

lemma not_upper_mem_lowerL {c : Char} {l : List Char} (h : c ∈ lowerL l) :
    isUpperCh c = false := by
  obtain ⟨c', -, hcc⟩ := List.mem_map.mp h
  rw [← hcc]
  exact lowerCh_not_upper c'

lemma containsSub_iff {needle hay : List Char} :
    containsSub needle hay = true ↔ needle <:+: hay := by
  simp [containsSub]

/-! ## Claim C1 -/

/-- Claim C1: after all checks run, the overall outcome is failure (exit
code 1) if and only if the accumulated diagnostics contain at least one
Error; Warnings alone never cause failure, and with zero Errors the
outcome is success (exit code 0) regardless of Warnings. -/
theorem c1_report_outcome (st : St) :
    (reportExitCode st = 1 ↔ st.errors ≠ []) ∧
    (reportExitCode st = 0 ↔ st.errors = []) ∧
    ∀ w : List Diag, reportExitCode ⟨[], w⟩ = 0 := by
  refine ⟨?_, ?_, fun w => rfl⟩ <;>
  · unfold reportExitCode
    by_cases h : st.errors = [] <;> simp [h]

/-! ## Claim C8 -/

/-- Claim C8: a missing source artifact appends an Error for the flag
extractor and for the registered-method extractor, but a Warning for the
config-field extractor; in every case the extractor returns an empty
result, so no per-symbol diagnostics can arise from that source. -/
theorem c8_missing_source (fs : FS) (st : St) (path : List Char)
    (names : List (List Char)) (h : readFS fs path = none)
    (hc : readFS fs cheatSrcPath = none) :
    extractFlagsFromFile fs path st =
      ([], { st with errors := st.errors ++ [Diag.srcNotFound path] }) ∧
    extractCheatcodesFromFS fs st =
      ([], { st with errors := st.errors ++ [Diag.cheatSrcNotFound] }) ∧
    extractConfigFieldsFromFS fs path names st =
      ([], { st with warnings := st.warnings ++ [Diag.configSrcNotFound path] }) := by
  refine ⟨?_, ?_, ?_⟩ <;>
    simp [extractFlagsFromFile, extractCheatcodesFromFS,
      extractConfigFieldsFromFS, h, hc]

/-- Witness for C8 at a concrete empty filesystem. -/
theorem c8_missing_source_witness :
    extractFlagsFromFile [] "cmd/fuzz_flags.go".data ⟨[], []⟩ =
      ([], ⟨[Diag.srcNotFound "cmd/fuzz_flags.go".data], []⟩) ∧
    extractCheatcodesFromFS [] ⟨[], []⟩ = ([], ⟨[Diag.cheatSrcNotFound], []⟩) ∧
    extractConfigFieldsFromFS [] "fuzzing/config/config.go".data
      ["FuzzingConfig".data] ⟨[], []⟩ =
      ([], ⟨[], [Diag.configSrcNotFound "fuzzing/config/config.go".data]⟩) := by
  have h := c8_missing_source [] ⟨[], []⟩ "cmd/fuzz_flags.go".data
    ["FuzzingConfig".data] rfl rfl
  have h2 := c8_missing_source [] ⟨[], []⟩ "fuzzing/config/config.go".data
    ["FuzzingConfig".data] rfl rfl
  exact ⟨h.1, h.2.1, h2.2.2⟩

/-! ## Claim C9 -/

/-- Claim C9: the flag presence test is a plain substring check: whenever
the documentation text contains `--` immediately followed by the flag
anywhere (even as a prefix of a longer option token or inside prose), the
flag is considered documented and no Error is produced for it. -/
theorem c9_flag_substring (fs : FS) (flags : List (List Char))
    (command docFile st doc flag) (hdoc : readFS fs docFile = some doc)
    (hin : ('-' :: '-' :: flag) <:+: doc)
    (hst : Diag.flagUndocumented flag command docFile ∉ st.errors) :
    Diag.flagUndocumented flag command docFile ∉
      (validateFlagsDocumented fs flags command docFile st).errors := by
  unfold validateFlagsDocumented
  rw [hdoc]
  intro hmem
  simp only [List.mem_append] at hmem
  rcases hmem with h | h
  · exact hst h
  · unfold missingFlagDiags at h
    simp only [List.mem_map] at h
    obtain ⟨f, hf, heq⟩ := h
    injection heq with h1 h2 h3
    subst h1
    have hpres := (List.mem_filter.mp hf).2
    rw [Bool.not_eq_true'] at hpres
    unfold flagPresent at hpres
    rw [Bool.or_eq_false_iff] at hpres
    rw [containsSub_iff.mpr hin] at hpres
    exact absurd hpres.1 (by simp)

/-- Witness for C9: the doc text mentions `--max-workers-extra`, which
contains `--max-workers` as a substring, so `max-workers` raises no
Error even though it is not documented on its own. -/
theorem c9_flag_substring_witness :
    Diag.flagUndocumented "max-workers".data "fuzz".data "docs/src/cli/fuzz.md".data ∉
      (validateFlagsDocumented
        [("docs/src/cli/fuzz.md".data, "use --max-workers-extra".data)]
        ["max-workers".data] "fuzz".data "docs/src/cli/fuzz.md".data
        ⟨[], []⟩).errors :=
  c9_flag_substring
    [("docs/src/cli/fuzz.md".data, "use --max-workers-extra".data)]
    ["max-workers".data] "fuzz".data "docs/src/cli/fuzz.md".data ⟨[], []⟩
    "use --max-workers-extra".data "max-workers".data rfl (by decide) (by simp)

/-! ## Claim C4 -/

/-- Concrete config-field name used to settle C4. -/
def c4Name : List Char := "testLimit".data

/-- Concrete documentation text used to settle C4. -/
def c4Doc : List Char := "## TestLimit".data

/-- Claim C4 counterexample: the claimed presence condition (backticked
name, or `## ` followed by the name matched case-insensitively) disagrees
with the code at name `testLimit` and documentation `## TestLimit`: the
claimed condition holds via the heading, but the code's presence test is
false because the needle `## testLimit` keeps the original casing while
the haystack is lowercased. -/
theorem c4_counterexample :
    ¬ (configFieldPresent c4Name c4Doc = true ↔
        btick c4Name <:+: c4Doc ∨
          (headingLit ++ lowerL c4Name) <:+: lowerL c4Doc) := by
  decide

/-- Claim C4 amended: the presence test succeeds iff the documentation
contains the backticked name, or the lowercased documentation contains
`## ` followed by the name with its original casing; consequently the
heading branch can never succeed for a name containing an uppercase ASCII
letter. -/
theorem c4_amended (name doc : List Char) :
    (configFieldPresent name doc = true ↔
      btick name <:+: doc ∨ (headingLit ++ name) <:+: lowerL doc) ∧
    ((∃ c ∈ name, isUpperCh c = true) →
      ¬ (headingLit ++ name) <:+: lowerL doc) := by
  constructor
  · simp [configFieldPresent, containsSub]
  · rintro ⟨c, hc, hup⟩ hinf
    have hmem : c ∈ lowerL doc :=
      hinf.subset (List.mem_append.mpr (Or.inr hc))
    rw [not_upper_mem_lowerL hmem] at hup
    exact absurd hup (by simp)

/-- Witness for C4 amended, applied at the concrete counterexample
inputs. -/
theorem c4_amended_witness :
    ¬ (headingLit ++ c4Name) <:+: lowerL c4Doc :=
  (c4_amended c4Name c4Doc).2 ⟨'L', by decide, by decide⟩

/-! ## Provenance of config-field entries -/

lemma extract_foldl_mem {content : List Char} {k v : List Char} :
    ∀ (names : List (List Char)) (acc : List (List Char × List Char)),
      (k, v) ∈ names.foldl (fun a nm => insertAll (structKVs content nm) a) acc →
      (∃ nm ∈ names, (k, v) ∈ structKVs content nm) ∨ (k, v) ∈ acc := by
  intro names
  induction names with
  | nil => intro acc h; exact Or.inr h
  | cons nm t ih =>
    intro acc h
    rw [List.foldl_cons] at h
    rcases ih _ h with h | h
    · obtain ⟨nm', hnm', hkv⟩ := h
      exact Or.inl ⟨nm', List.mem_cons_of_mem _ hnm', hkv⟩
    · rcases mem_insertAll h with h | h
      · exact Or.inl ⟨nm, List.mem_cons_self _ _, h⟩
      · exact Or.inr h

lemma extract_mem {content : List Char} {names : List (List Char)}
    {k v : List Char} (h : (k, v) ∈ extractConfigFields content names) :
    ∃ nm ∈ names, (k, v) ∈ structKVs content nm := by
  unfold extractConfigFields at h
  rcases extract_foldl_mem names [] h with h | h
  · exact h
  · simp at h

lemma structKVs_mem {content nm k v : List Char}
    (h : (k, v) ∈ structKVs content nm) :
    ∃ body m, findStruct content nm = some body ∧ m ∈ scanFields body ∧
      processField nm m = some (k, v) := by
  unfold structKVs at h
  cases hf : findStruct content nm with
  | none => rw [hf] at h; simp at h
  | some body =>
    rw [hf] at h
    unfold structEntries at h
    obtain ⟨m, hm, hpm⟩ := List.mem_filterMap.mp h
    exact ⟨body, m, rfl, hm, hpm⟩

lemma processField_some {structName : List Char}
    {m : List Char × List Char × List Char} {k v : List Char}
    (h : processField structName m = some (k, v)) :
    headIsUpper m.1 = true ∧ containsSub omitemptyLit m.2.2 = false ∧
      isNestedType m.2.1 = false ∧
      k = m.2.2.takeWhile (fun c => c != ',') ∧ v = structName := by
  unfold processField at h
  by_cases h1 : headIsUpper m.1 = true
  case neg => simp [h1] at h
  by_cases h2 : containsSub omitemptyLit m.2.2 = true
  case pos => simp [h1, h2] at h
  by_cases h3 : isNestedType m.2.1 = true
  case pos => simp [h1, h2, h3] at h
  rw [if_neg (by simp [h1]), if_neg h2, if_neg h3] at h
  injection h with h4
  injection h4 with h5 h6
  exact ⟨h1, by simp [h2], by simp [h3], h5.symm, h6.symm⟩

/-! ## Claim C5 -/

/-- Claim C5 amended: every entry of the extracted mapping comes from a
field match whose json tag does NOT contain the exact lowercase substring
`,omitempty`; so a field carrying the lowercase qualifier never
contributes an entry.  (The test is case-sensitive: other casings such as
`,OmitEmpty` are not treated as omit-empty, see the counterexample.) -/
theorem c5_amended (content : List Char) (names : List (List Char))
    (k v : List Char) (h : (k, v) ∈ extractConfigFields content names) :
    ∃ nm ∈ names, ∃ body m, findStruct content nm = some body ∧
      m ∈ scanFields body ∧ containsSub omitemptyLit m.2.2 = false ∧
      k = m.2.2.takeWhile (fun c => c != ',') ∧ v = nm := by
  obtain ⟨nm, hnm, hkv⟩ := extract_mem h
  obtain ⟨body, m, hf, hm, hpm⟩ := structKVs_mem hkv
  obtain ⟨-, h2, -, h4, h5⟩ := processField_some hpm
  exact ⟨nm, hnm, body, m, hf, hm, h2, h4, h5⟩

/-- Source text used to settle C5: one struct whose only field carries an
omit-empty qualifier in non-lowercase casing. -/
def c5Content : List Char :=
  "type FooConfig struct \x7b\n\tBar int \x60json:\x22bar,OmitEmpty\x22\x60\n\x7d".data

/-- Claim C5 counterexample: the field key `bar` carries the omit-empty
qualifier in casing `OmitEmpty`, yet it IS included in the extracted
mapping, because the code's test `',omitempty' in tag` is
case-sensitive. -/
theorem c5_counterexample :
    dictLookup "bar".data (extractConfigFields c5Content ["FooConfig".data]) =
      some "FooConfig".data := by
  decide

/-- Witness for C5 amended at a concrete extracted entry. -/
theorem c5_amended_witness :
    ∃ nm ∈ ["FooConfig".data], ∃ body m,
      findStruct c5Content nm = some body ∧ m ∈ scanFields body ∧
      containsSub omitemptyLit m.2.2 = false ∧
      "bar".data = m.2.2.takeWhile (fun c => c != ',') ∧
      "FooConfig".data = nm :=
  c5_amended c5Content ["FooConfig".data] "bar".data "FooConfig".data (by decide)

/-! ## Claim C10 -/

lemma structKVs_val {content nm k v : List Char}
    (h : (k, v) ∈ structKVs content nm) : v = nm := by
  obtain ⟨body, m, -, -, hpm⟩ := structKVs_mem h
  exact (processField_some hpm).2.2.2.2

lemma foldl_lookup_not_mem {content : List Char} {k : List Char} :
    ∀ (names : List (List Char)) (d : List (List Char × List Char)),
      (∀ s ∈ names, ∀ kv ∈ structKVs content s, kv.1 ≠ k) →
      dictLookup k
          (names.foldl (fun a nm => insertAll (structKVs content nm) a) d) =
        dictLookup k d := by
  intro names
  induction names with
  | nil => intro d _; rfl
  | cons nm t ih =>
    intro d h
    rw [List.foldl_cons]
    rw [ih _ (fun s hs => h s (List.mem_cons_of_mem _ hs))]
    exact dictLookup_insertAll_not_mem (fun kv hkv => h nm (List.mem_cons_self _ _) kv hkv)

lemma insertAll_keysNodup {kvs : List (List Char × List Char)} :
    ∀ {d : List (List Char × List Char)}, (d.map Prod.fst).Nodup →
      ((insertAll kvs d).map Prod.fst).Nodup := by
  induction kvs with
  | nil => intro d h; exact h
  | cons kv t ih =>
    intro d h
    rw [insertAll, List.foldl_cons]
    exact ih (keysNodup_dictInsert h)

lemma extract_keysNodup (content : List Char) (names : List (List Char)) :
    ((extractConfigFields content names).map Prod.fst).Nodup := by
  unfold extractConfigFields
  suffices h : ∀ (l : List (List Char)) (d : List (List Char × List Char)),
      (d.map Prod.fst).Nodup →
      ((l.foldl (fun a nm => insertAll (structKVs content nm) a) d).map
          Prod.fst).Nodup by
    exact h names [] (by simp)
  intro l
  induction l with
  | nil => intro d h; exact h
  | cons nm t ih =>
    intro d h
    rw [List.foldl_cons]
    exact ih _ (insertAll_keysNodup h)

lemma length_filter_mono {p q : α → Bool} {l : List α}
    (h : ∀ a, p a = true → q a = true) :
    (l.filter p).length ≤ (l.filter q).length := by
  induction l with
  | nil => simp
  | cons a t ih =>
    rw [List.filter_cons, List.filter_cons]
    by_cases hp : p a = true
    · rw [if_pos hp, if_pos (h a hp)]
      simpa using ih
    · rw [if_neg hp]
      by_cases hq : q a = true
      · rw [if_pos hq]
        exact Nat.le_succ_of_le ih
      · rw [if_neg hq]
        exact ih

lemma filter_key_le_one {d : List (List Char × List Char)}
    (h : (d.map Prod.fst).Nodup) (k : List Char) :
    (d.filter (fun kv => kv.1 == k)).length ≤ 1 := by
  induction d with
  | nil => simp
  | cons kv t ih =>
    rw [List.filter_cons]
    simp only [List.map_cons, List.nodup_cons] at h
    by_cases hk : kv.1 == k
    · rw [if_pos (by simpa using hk)]
      have ht : t.filter (fun kv => kv.1 == k) = [] := by
        rw [List.filter_eq_nil_iff]
        intro kv' hkv' hbeq
        apply h.1
        rw [show kv.1 = k from by simpa using hk]
        exact List.mem_map.mpr ⟨kv', hkv', by simpa using hbeq⟩
      rw [ht]
      simp
    · rw [if_neg (by simpa using hk)]
      exact ih h.2

/-- Does a diagnostic name a given config-field key? -/
def diagNamesKey (k : List Char) : Diag → Bool
  | Diag.configUndocumented f _ _ => f == k
  | _ => false

lemma missingConfigDiags_key_le {flds : List (List Char × List Char)}
    {doc docFile k : List Char} :
    ((missingConfigDiags flds doc docFile).filter (diagNamesKey k)).length ≤
      (flds.filter (fun kv => kv.1 == k)).length := by
  unfold missingConfigDiags
  rw [List.filter_map]
  rw [List.length_map]
  rw [List.filter_filter]
  apply length_filter_mono
  intro kv hkv
  simp only [Bool.and_eq_true] at hkv
  have : diagNamesKey k (Diag.configUndocumented kv.1 kv.2 docFile) = true := hkv.1
  simpa [diagNamesKey] using this

/-- Claim C10: within one config-field extraction, when two requested
structs both declare a field with the same external key, the extracted
mapping keeps a single entry for that key whose owning-struct label comes
from the struct processed last among those declaring it, and the mapping's
keys are duplicate-free, so at most one diagnostic naming that key can be
produced for the pairing. -/
theorem c10_duplicate_keys (content : List Char) (l1 l2 l3 : List (List Char))
    (s1 s2 k : List Char)
    (_h1 : ∃ kv ∈ structKVs content s1, kv.1 = k)
    (h2 : ∃ kv ∈ structKVs content s2, kv.1 = k)
    (h3 : ∀ s ∈ l3, ∀ kv ∈ structKVs content s, kv.1 ≠ k) :
    dictLookup k (extractConfigFields content (l1 ++ s1 :: l2 ++ s2 :: l3)) =
        some s2 ∧
      ((extractConfigFields content (l1 ++ s1 :: l2 ++ s2 :: l3)).map
          Prod.fst).Nodup ∧
      ∀ doc docFile,
        ((missingConfigDiags
              (extractConfigFields content (l1 ++ s1 :: l2 ++ s2 :: l3)) doc
              docFile).filter (diagNamesKey k)).length ≤ 1 := by
  have hkeys := extract_keysNodup content (l1 ++ s1 :: l2 ++ s2 :: l3)
  refine ⟨?_, hkeys, ?_⟩
  · unfold extractConfigFields
    rw [show l1 ++ s1 :: l2 ++ s2 :: l3 = (l1 ++ s1 :: l2) ++ s2 :: l3 by simp]
    rw [List.foldl_append, List.foldl_cons]
    rw [foldl_lookup_not_mem l3 _ h3]
    exact dictLookup_insertAll_const
      (fun kv hkv => structKVs_val (show (kv.1, kv.2) ∈ _ from hkv))
      h2
  · intro doc docFile
    calc ((missingConfigDiags _ doc docFile).filter (diagNamesKey k)).length ≤ _ :=
          missingConfigDiags_key_le
      _ ≤ 1 := filter_key_le_one hkeys k

/-- Source text used as the C10 witness: two structs declaring the same
external key `k`. -/
def c10Content : List Char :=
  "type A struct \x7b\n\tX int \x60json:\x22k\x22\x60\n\x7d\ntype B struct \x7b\n\tY int \x60json:\x22k\x22\x60\n\x7d".data

/-- Witness for C10: with structs `A` then `B` both declaring key `k`,
the mapping maps `k` to `B`. -/
theorem c10_duplicate_keys_witness :
    dictLookup "k".data (extractConfigFields c10Content ["A".data, "B".data]) =
      some "B".data :=
  (c10_duplicate_keys c10Content [] [] [] "A".data "B".data "k".data
    (by decide) (by decide) (by decide)).1

/-! ## Characterizations of the matchers' captures -/

lemma trySetter_some {setter l s r : List Char}
    (h : trySetter setter l = some (s, r)) :
    s ≠ [] ∧ ∀ c ∈ s, c ≠ '\x22' := by
  unfold trySetter at h
  cases hd : dropLit (flagsPrefixLit ++ setter ++ ['(', '\x22']) l with
  | none => rw [hd] at h; simp at h
  | some r1 =>
    rw [hd] at h
    obtain ⟨-, hne, hq⟩ := takeCapture_some h
    exact ⟨hne, hq⟩

lemma tryFlagTyped_some {l s r : List Char} (h : tryFlagTyped l = some (s, r)) :
    s ≠ [] ∧ ∀ c ∈ s, c ≠ '\x22' := by
  obtain ⟨setter, -, hs⟩ := findSome?_mem h
  exact trySetter_some hs

lemma tryCountP_some {l s r : List Char} (h : tryCountP l = some (s, r)) :
    s ≠ [] ∧ ∀ c ∈ s, c ≠ '\x22' := by
  unfold tryCountP at h
  cases hd : dropLit countPLit l with
  | none => rw [hd] at h; simp at h
  | some r1 =>
    rw [hd] at h
    dsimp only at h
    cases hc : takeCapture r1 with
    | none => rw [hc] at h; simp at h
    | some p =>
      obtain ⟨long, r2⟩ := p
      rw [hc] at h
      dsimp only at h
      obtain ⟨-, hne, hq⟩ := takeCapture_some hc
      cases r2 with
      | nil => simp at h
      | cons c r3 =>
        dsimp only at h
        by_cases hcc : c = ','
        case neg => rw [if_neg hcc] at h; simp at h
        rw [if_pos hcc] at h
        cases hdw : r3.dropWhile isSpaceCh with
        | nil => rw [hdw] at h; simp at h
        | cons c2 r5 =>
          rw [hdw] at h
          dsimp only at h
          by_cases hq2 : c2 = '\x22'
          case neg => rw [if_neg hq2] at h; simp at h
          rw [if_pos hq2] at h
          cases hc2 : takeCapture r5 with
          | none => rw [hc2] at h; simp at h
          | some p2 =>
            obtain ⟨sh, r6⟩ := p2
            rw [hc2] at h
            dsimp only at h
            injection h with h1
            injection h1 with h2 h3
            subst h2
            exact ⟨hne, hq⟩

lemma tryAddMethod_some {l s r : List Char} (h : tryAddMethod l = some (s, r)) :
    s ≠ [] ∧ ∀ c ∈ s, c ≠ '\x22' := by
  unfold tryAddMethod at h
  cases hd : dropLit addMethodLit l with
  | none => rw [hd] at h; simp at h
  | some r1 =>
    rw [hd] at h
    dsimp only at h
    cases hw : r1.dropWhile isSpaceCh with
    | nil => rw [hw] at h; simp at h
    | cons c r2 =>
      rw [hw] at h
      dsimp only at h
      by_cases hc : c = '\x22'
      case neg => rw [if_neg hc] at h; simp at h
      rw [if_pos hc] at h
      obtain ⟨-, hne, hq⟩ := takeCapture_some h
      exact ⟨hne, hq⟩

lemma tryField_some {l : List Char} {m : List Char × List Char × List Char}
    {r : List Char} (h : tryField l = some (m, r)) :
    m.2.2 ≠ [] ∧ ∀ c ∈ m.2.2, c ≠ '\x22' := by
  unfold tryField at h
  dsimp only at h
  by_cases h1 : (l.takeWhile isWordCh).isEmpty
  case pos => rw [if_pos h1] at h; simp at h
  rw [if_neg h1] at h
  by_cases h2 : ((l.dropWhile isWordCh).takeWhile isSpaceCh).isEmpty
  case pos => rw [if_pos h2] at h; simp at h
  rw [if_neg h2] at h
  by_cases h3 : (((l.dropWhile isWordCh).dropWhile isSpaceCh).takeWhile
      (fun c => !(isSpaceCh c) && c != '\x60')).isEmpty
  case pos => rw [if_pos h3] at h; simp at h
  rw [if_neg h3] at h
  cases hw : (((l.dropWhile isWordCh).dropWhile isSpaceCh).dropWhile
      (fun c => !(isSpaceCh c) && c != '\x60')).dropWhile isSpaceCh with
  | nil => rw [hw] at h; simp at h
  | cons c r5 =>
    rw [hw] at h
    dsimp only at h
    by_cases hc : c = '\x60'
    case neg => rw [if_neg hc] at h; simp at h
    rw [if_pos hc] at h
    cases hj : dropLit jsonLit r5 with
    | none => rw [hj] at h; simp at h
    | some r6 =>
      rw [hj] at h
      dsimp only at h
      cases hcap : takeCapture r6 with
      | none => rw [hcap] at h; simp at h
      | some p =>
        obtain ⟨tag, r7⟩ := p
        rw [hcap] at h
        dsimp only at h
        injection h with h4
        injection h4 with h5 h6
        subst h5
        obtain ⟨-, hne, hq⟩ := takeCapture_some hcap
        exact ⟨hne, hq⟩

/-! ## Claim C6 -/

lemma mem_takeWhile_holds {p : Char → Bool} {l : List Char} {c : Char}
    (h : c ∈ l.takeWhile p) : p c = true :=
  List.mem_takeWhile_imp h

lemma baseName_no_paren (s : List Char) : '(' ∉ baseName s := by
  intro h
  have := mem_takeWhile_holds h
  simp at this

lemma scanFields_tag_nonempty {body : List Char}
    {m : List Char × List Char × List Char} (hm : m ∈ scanFields body) :
    m.2.2 ≠ [] :=
  scanAll_forall (fun _ _ _ h => (tryField_some h).1) hm

/-- Source text used for the C6 counterexample: a registration string that
begins with `(`. -/
def c6Content : List Char := "addMethod(\x22(x)\x22)".data

/-- Claim C6 counterexample: with the syntactically matched registration
string `(x)`, splitting at the first `(` yields the empty base name, so
the produced Symbol has an empty name, contradicting the claim. -/
theorem c6_counterexample : ([] : List Char) ∈ baseMethodSet c6Content := by
  decide

/-- Claim C6 amended: every flag symbol has a non-empty name; method
base-name symbols never contain `(` and config-field keys never contain
`,` (kind-specific decoration is stripped at extraction time); method and
config names are additionally non-empty provided no matched registration
string begins with `(` and no matched json tag begins with `,`. -/
theorem c6_amended :
    (∀ content n, n ∈ flagMatches content → n ≠ []) ∧
    (∀ content b, b ∈ baseMethodSet content → '(' ∉ b) ∧
    (∀ content names k v, (k, v) ∈ extractConfigFields content names →
      ',' ∉ k) ∧
    (∀ content b, b ∈ baseMethodSet content →
      (∀ s ∈ cheatcodeMatches content, s.head? ≠ some '(') → b ≠ []) ∧
    (∀ content names k v, (k, v) ∈ extractConfigFields content names →
      (∀ nm body m, findStruct content nm = some body → m ∈ scanFields body →
        m.2.2.head? ≠ some ',') → k ≠ []) := by
  refine ⟨?_, ?_, ?_, ?_, ?_⟩
  · intro content n hn
    rcases List.mem_append.mp hn with h | h
    · exact scanAll_forall (fun _ s _ hs => (tryFlagTyped_some hs).1) h
    · exact scanAll_forall (fun _ s _ hs => (tryCountP_some hs).1) h
  · intro content b hb
    obtain ⟨s, -, rfl⟩ := Finset.mem_image.mp hb
    exact baseName_no_paren s
  · intro content names k v h hc
    obtain ⟨nm, -, body, m, -, -, -, hk, -⟩ := c5_amended content names k v h
    rw [hk] at hc
    have := mem_takeWhile_holds hc
    simp at this
  · intro content b hb hhead
    obtain ⟨s, hs, rfl⟩ := Finset.mem_image.mp hb
    have hsm : s ∈ cheatcodeMatches content := List.mem_toFinset.mp hs
    have hne : s ≠ [] :=
      scanAll_forall (fun _ s2 _ hs2 => (tryAddMethod_some hs2).1) hsm
    cases s with
    | nil => exact absurd rfl hne
    | cons c t =>
      have hc : c ≠ '(' := by
        intro hcc
        exact hhead _ hsm (by rw [hcc]; rfl)
      unfold baseName
      rw [List.takeWhile_cons, if_pos (by simpa using hc)]
      simp
  · intro content names k v h hhead
    obtain ⟨nm, -, body, m, hf, hm, -, hk, -⟩ := c5_amended content names k v h
    have htag : m.2.2 ≠ [] := scanFields_tag_nonempty hm
    have hh := hhead nm body m hf hm
    cases htag2 : m.2.2 with
    | nil => exact absurd htag2 htag
    | cons c t =>
      rw [htag2] at hk hh
      have hc : c ≠ ',' := by
        intro hcc
        exact hh (by rw [hcc]; rfl)
      rw [List.takeWhile_cons, if_pos (by simpa using hc)] at hk
      rw [hk]
      simp

/-- Witness for C6 amended: the no-parenthesis conjunct applied at a
concrete extracted base name. -/
theorem c6_amended_witness :
    '(' ∉ baseName "toString(address)".data :=
  c6_amended.2.1 "addMethod(\x22toString(address)\x22)".data
    (baseName "toString(address)".data) (by decide)

/-! ## Shrinking of the flag and cheatcode matchers -/

lemma trySetter_shrink {setter l s r : List Char}
    (h : trySetter setter l = some (s, r)) : r.length < l.length := by
  unfold trySetter at h
  cases hd : dropLit (flagsPrefixLit ++ setter ++ ['(', '\x22']) l with
  | none => rw [hd] at h; simp at h
  | some r1 =>
    rw [hd] at h
    have h1 := takeCapture_shrink h
    have h2 := dropLit_eq_some.mp hd
    rw [h2]
    simp only [List.length_append]
    omega

lemma tryFlagTyped_shrink : Shrinking tryFlagTyped := by
  intro l s r h
  obtain ⟨setter, -, hs⟩ := findSome?_mem h
  exact trySetter_shrink hs

lemma tryCountP_shrink : Shrinking tryCountP := by
  intro l s r h
  unfold tryCountP at h
  cases hd : dropLit countPLit l with
  | none => rw [hd] at h; simp at h
  | some r1 =>
    rw [hd] at h
    dsimp only at h
    cases hc : takeCapture r1 with
    | none => rw [hc] at h; simp at h
    | some p =>
      obtain ⟨long, r2⟩ := p
      rw [hc] at h
      dsimp only at h
      cases r2 with
      | nil => simp at h
      | cons c r3 =>
        dsimp only at h
        by_cases hcc : c = ','
        case neg => rw [if_neg hcc] at h; simp at h
        rw [if_pos hcc] at h
        cases hdw : r3.dropWhile isSpaceCh with
        | nil => rw [hdw] at h; simp at h
        | cons c2 r5 =>
          rw [hdw] at h
          dsimp only at h
          by_cases hq2 : c2 = '\x22'
          case neg => rw [if_neg hq2] at h; simp at h
          rw [if_pos hq2] at h
          cases hc2 : takeCapture r5 with
          | none => rw [hc2] at h; simp at h
          | some p2 =>
            obtain ⟨sh, r6⟩ := p2
            rw [hc2] at h
            dsimp only at h
            injection h with h1
            injection h1 with h2 h3
            subst h3
            have e1 := takeCapture_shrink hc
            have e2 := takeCapture_shrink hc2
            have e3 : r5.length < r3.length := by
              have := length_dropWhile_le isSpaceCh r3
              rw [hdw] at this
              simp only [List.length_cons] at this
              omega
            have e4 := dropLit_eq_some.mp hd
            have e5 : l.length = countPLit.length + r1.length := by
              rw [e4]; simp
            simp only [List.length_cons] at e1
            omega

lemma tryAddMethod_shrink : Shrinking tryAddMethod := by
  intro l s r h
  unfold tryAddMethod at h
  cases hd : dropLit addMethodLit l with
  | none => rw [hd] at h; simp at h
  | some r1 =>
    rw [hd] at h
    dsimp only at h
    cases hw : r1.dropWhile isSpaceCh with
    | nil => rw [hw] at h; simp at h
    | cons c r2 =>
      rw [hw] at h
      dsimp only at h
      by_cases hc : c = '\x22'
      case neg => rw [if_neg hc] at h; simp at h
      rw [if_pos hc] at h
      have e1 := takeCapture_shrink h
      have e2 : r2.length < r1.length := by
        have := length_dropWhile_le isSpaceCh r1
        rw [hw] at this
        simp only [List.length_cons] at this
        omega
      have e3 := dropLit_eq_some.mp hd
      have e4 : l.length = addMethodLit.length + r1.length := by
        rw [e3]; simp
      omega

/-! ## Failing positions of the matchers -/

/-- The literal and the text disagree at some position within the text, so
no match of a pattern starting with that literal can begin here. -/
def mismatchAt (lit s : List Char) : Prop :=
  ∃ k, k < s.length ∧ k < lit.length ∧ s.getD k ' ' ≠ lit.getD k ' '

instance (lit s : List Char) : Decidable (mismatchAt lit s) :=
  decidable_of_iff (∃ k < s.length, k < lit.length ∧ s.getD k ' ' ≠ lit.getD k ' ')
    ⟨fun ⟨k, h1, h2, h3⟩ => ⟨k, h1, h2, h3⟩, fun ⟨k, h1, h2, h3⟩ => ⟨k, h1, h2, h3⟩⟩

lemma getD_append_length {xs : List Char} {y : Char} {ys : List Char} {d : Char} :
    (xs ++ y :: ys).getD xs.length d = y := by
  induction xs with
  | nil => rfl
  | cons a t ih => simpa using ih

lemma dropLit_none_of_mismatch {lit s rest : List Char} (h : mismatchAt lit s) :
    dropLit lit (s ++ rest) = none := by
  cases hd : dropLit lit (s ++ rest) with
  | none => rfl
  | some r =>
    exfalso
    obtain ⟨k, hk1, hk2, hk3⟩ := h
    have heq := dropLit_eq_some.mp hd
    apply hk3
    calc s.getD k ' ' = (s ++ rest).getD k ' ' := (List.getD_append _ _ _ _ hk1).symm
      _ = (lit ++ r).getD k ' ' := by rw [heq]
      _ = lit.getD k ' ' := List.getD_append _ _ _ _ hk2

/-- No match of a quote-terminated literal can begin inside a captured
name: the name contains neither a quote nor an opening parenthesis, while
the literal contains `(` and, before any quote, a `(`. -/
lemma dropLit_quote_barrier {lit suffix rest : List Char}
    (hfit : ∀ k, k < lit.length → lit.getD k ' ' = '\x22' → '(' ∈ lit.take k)
    (hparen : '(' ∈ lit)
    (hq : ∀ c ∈ suffix, c ≠ '\x22' ∧ c ≠ '(') :
    dropLit lit (suffix ++ '\x22' :: rest) = none := by
  cases hd : dropLit lit (suffix ++ '\x22' :: rest) with
  | none => rfl
  | some r =>
    exfalso
    have heq := dropLit_eq_some.mp hd
    by_cases hlen : lit.length ≤ suffix.length
    · have hpre : lit <+: suffix := by
        have h1 : lit = (suffix ++ '\x22' :: rest).take lit.length := by
          rw [heq, List.take_append_eq_append_take]
          simp
        rw [List.take_append_eq_append_take, Nat.sub_eq_zero_of_le hlen] at h1
        simp only [List.take_nil, List.take_zero, List.append_nil] at h1
        rw [h1]
        exact List.take_prefix _ _
      exact (hq '(' (hpre.subset hparen)).2 rfl
    · push_neg at hlen
      have h1 : lit.getD suffix.length ' ' = '\x22' := by
        rw [← List.getD_append lit r ' ' _ hlen, ← heq, getD_append_length]
      have h2 := hfit suffix.length hlen h1
      have h3 : lit.take suffix.length = suffix := by
        have h4 := congrArg (List.take suffix.length) heq
        rw [List.take_append_eq_append_take, List.take_append_eq_append_take,
          Nat.sub_self, Nat.sub_eq_zero_of_le (Nat.le_of_lt hlen)] at h4
        simp only [List.take_zero, List.append_nil, List.take_length] at h4
        exact h4.symm
      rw [h3] at h2
      exact (hq '(' h2).2 rfl

/-! ## Skip lemmas: positions where the flag matchers cannot match -/

lemma trySetter_none_of_dropLit {setter l : List Char}
    (h : dropLit (flagsPrefixLit ++ setter ++ ['(', '\x22']) l = none) :
    trySetter setter l = none := by
  unfold trySetter
  rw [h]

lemma tryFlagTyped_eq_none {l : List Char}
    (h : ∀ setter ∈ flagSetters, trySetter setter l = none) :
    tryFlagTyped l = none :=
  List.findSome?_eq_none_iff.mpr h

lemma tryCountP_none_of_dropLit {l : List Char}
    (h : dropLit countPLit l = none) : tryCountP l = none := by
  unfold tryCountP
  rw [h]

lemma tryFlagTyped_cons_ne {c : Char} {t : List Char} (h : c ≠ '.') :
    tryFlagTyped (c :: t) = none := by
  apply tryFlagTyped_eq_none
  intro setter _
  apply trySetter_none_of_dropLit
  simp [flagsPrefixLit, dropLit, h]

lemma tryCountP_cons_ne {c : Char} {t : List Char} (h : c ≠ '.') :
    tryCountP (c :: t) = none := by
  apply tryCountP_none_of_dropLit
  simp [countPLit, flagsPrefixLit, dropLit, h]

lemma tryAddMethod_cons_ne {c : Char} {t : List Char} (h : c ≠ 'a') :
    tryAddMethod (c :: t) = none := by
  unfold tryAddMethod
  rw [show dropLit addMethodLit (c :: t) = none from by
    simp [addMethodLit, dropLit, h]]

lemma tryCountP_in_name {suffix rest : List Char}
    (hq : ∀ c ∈ suffix, c ≠ '\x22' ∧ c ≠ '(') :
    tryCountP (suffix ++ '\x22' :: rest) = none :=
  tryCountP_none_of_dropLit (dropLit_quote_barrier (by decide) (by decide) hq)

lemma tryFlagTyped_in_name {suffix rest : List Char}
    (hq : ∀ c ∈ suffix, c ≠ '\x22' ∧ c ≠ '(') :
    tryFlagTyped (suffix ++ '\x22' :: rest) = none := by
  apply tryFlagTyped_eq_none
  intro setter hs
  apply trySetter_none_of_dropLit
  fin_cases hs <;>
    exact dropLit_quote_barrier (by decide) (by decide) hq

/-! ## Walking the scan over non-matching regions -/

lemma scanAll_skip_block {f : List Char → Option (α × List Char)}
    {P : List Char → Prop} (hP : ∀ s rest, P s → f (s ++ rest) = none) :
    ∀ (block rest : List Char), (∀ s, s <:+ block → s ≠ [] → P s) →
      scanAll f (block ++ rest) = scanAll f rest := by
  intro block
  induction block with
  | nil => intro rest _; rfl
  | cons c t ih =>
    intro rest hs
    rw [List.cons_append,
      scanAll_skip (by
        have := hP (c :: t) rest (hs (c :: t) List.suffix_rfl (by simp))
        simpa using this)]
    exact ih rest (fun s hsuf hne => hs s (hsuf.trans (List.suffix_cons c t)) hne)

lemma scan_through_name {f : List Char → Option (List Char × List Char)}
    (hfail : ∀ suffix rest2, (∀ c ∈ suffix, c ≠ '\x22' ∧ c ≠ '(') →
      f (suffix ++ '\x22' :: rest2) = none)
    {n rest : List Char} (hn : ∀ c ∈ n, c ≠ '\x22' ∧ c ≠ '(') :
    scanAll f (n ++ '\x22' :: rest) = scanAll f ('\x22' :: rest) := by
  induction n with
  | nil => rfl
  | cons c t ih =>
    rw [List.cons_append,
      scanAll_skip (by
        have := hfail (c :: t) rest hn
        simpa using this)]
    exact ih (fun c2 hc2 => hn c2 (List.mem_cons_of_mem c hc2))

lemma scan_through_spaces {f : List Char → Option (List Char × List Char)}
    (hfail : ∀ c t, isSpaceCh c = true → f (c :: t) = none)
    {ws rest : List Char} (hws : ∀ c ∈ ws, isSpaceCh c = true) :
    scanAll f (ws ++ rest) = scanAll f rest := by
  induction ws with
  | nil => rfl
  | cons c t ih =>
    rw [List.cons_append,
      scanAll_skip (hfail c (t ++ rest) (hws c (List.mem_cons_self c t)))]
    exact ih (fun c2 hc2 => hws c2 (List.mem_cons_of_mem c hc2))

lemma isSpaceCh_ne_dot {c : Char} (h : isSpaceCh c = true) : c ≠ '.' := by
  intro hc
  subst hc
  simp [isSpaceCh] at h

/-! ## The matchers succeed exactly on rendered declarations -/

lemma trySetter_render_ne (s2 s : List Char) (hs2 : s2 ∈ flagSetters)
    (hs : s ∈ flagSetters) (hne : s2 ≠ s) (tail : List Char) :
    trySetter s2 ((flagsPrefixLit ++ s ++ ['(', '\x22']) ++ tail) = none := by
  apply trySetter_none_of_dropLit
  apply dropLit_none_of_mismatch
  exact (by decide :
    ∀ a ∈ flagSetters, ∀ b ∈ flagSetters, a ≠ b →
      mismatchAt (flagsPrefixLit ++ a ++ ['(', '\x22'])
        (flagsPrefixLit ++ b ++ ['(', '\x22'])) s2 hs2 s hs hne

/-- A name is a well-formed flag name: non-empty, no quote, no opening
parenthesis. -/
def goodName (n : List Char) : Prop :=
  n ≠ [] ∧ ∀ c ∈ n, c ≠ '\x22' ∧ c ≠ '('

instance (n : List Char) : Decidable (goodName n) :=
  inferInstanceAs (Decidable (_ ∧ _))

lemma tryFlagTyped_render {setter n rest : List Char} (hs : setter ∈ flagSetters)
    (hn : goodName n) :
    tryFlagTyped ((flagsPrefixLit ++ setter ++ ['(', '\x22']) ++
      (n ++ '\x22' :: rest)) = some (n, rest) := by
  have hmatch : trySetter setter ((flagsPrefixLit ++ setter ++ ['(', '\x22']) ++
      (n ++ '\x22' :: rest)) = some (n, rest) := by
    unfold trySetter
    rw [dropLit_self]
    exact takeCapture_append hn.1 (fun c hc => (hn.2 c hc).1)
  unfold tryFlagTyped
  fin_cases hs
  ·
    simp only [flagSetters, List.findSome?_cons, hmatch]
  ·
    have e0 := trySetter_render_ne setStr setInt (by decide) (by decide)
      (by decide) (n ++ '\x22' :: rest)
    simp only [flagSetters, List.findSome?_cons, e0, hmatch]
  ·
    have e0 := trySetter_render_ne setStr setBool (by decide) (by decide)
      (by decide) (n ++ '\x22' :: rest)
    have e1 := trySetter_render_ne setInt setBool (by decide) (by decide)
      (by decide) (n ++ '\x22' :: rest)
    simp only [flagSetters, List.findSome?_cons, e0, e1, hmatch]
  ·
    have e0 := trySetter_render_ne setStr setUint (by decide) (by decide)
      (by decide) (n ++ '\x22' :: rest)
    have e1 := trySetter_render_ne setInt setUint (by decide) (by decide)
      (by decide) (n ++ '\x22' :: rest)
    have e2 := trySetter_render_ne setBool setUint (by decide) (by decide)
      (by decide) (n ++ '\x22' :: rest)
    simp only [flagSetters, List.findSome?_cons, e0, e1, e2, hmatch]
  ·
    have e0 := trySetter_render_ne setStr setStrSlice (by decide) (by decide)
      (by decide) (n ++ '\x22' :: rest)
    have e1 := trySetter_render_ne setInt setStrSlice (by decide) (by decide)
      (by decide) (n ++ '\x22' :: rest)
    have e2 := trySetter_render_ne setBool setStrSlice (by decide) (by decide)
      (by decide) (n ++ '\x22' :: rest)
    have e3 := trySetter_render_ne setUint setStrSlice (by decide) (by decide)
      (by decide) (n ++ '\x22' :: rest)
    simp only [flagSetters, List.findSome?_cons, e0, e1, e2, e3, hmatch]

lemma tryCountP_render {l s ws rest : List Char} (hl : goodName l)
    (hs : goodName s) (hws : ∀ c ∈ ws, isSpaceCh c = true) :
    tryCountP (countPLit ++ (l ++ '\x22' :: ',' :: (ws ++ '\x22' :: (s ++
      '\x22' :: rest)))) = some (l, rest) := by
  unfold tryCountP
  rw [dropLit_self]
  dsimp only
  rw [takeCapture_append hl.1 (fun c hc => (hl.2 c hc).1)]
  dsimp only
  rw [if_pos rfl]
  rw [dropWhile_app hws (by decide)]
  dsimp only
  rw [if_pos rfl]
  rw [takeCapture_append hs.1 (fun c hc => (hs.2 c hc).1)]

lemma tryAddMethod_render {s rest : List Char} (hne : s ≠ [])
    (hq : ∀ c ∈ s, c ≠ '\x22') :
    tryAddMethod (addMethodLit ++ '\x22' :: (s ++ '\x22' :: rest)) =
      some (s, rest) := by
  unfold tryAddMethod
  rw [show addMethodLit ++ '\x22' :: (s ++ '\x22' :: rest) =
      addMethodLit ++ ('\x22' :: (s ++ '\x22' :: rest)) from rfl]
  rw [dropLit_self]
  dsimp only
  rw [List.dropWhile_cons, if_neg (by decide)]
  dsimp only
  rw [if_pos rfl]
  exact takeCapture_append hne hq

/-! ## Abstract flag declarations and their rendering (for stating C2) -/

/-- A syntactically valid flag declaration: a typed setter or a CountP
declaration (whose `ws` is the whitespace the pattern's `\s*` allows
between the two string arguments). -/
inductive FlagDecl where
  | typed (setter : List Char) (name : List Char)
  | countP (long short ws : List Char)

/-- The flag name a declaration declares. -/
def FlagDecl.flagName : FlagDecl → List Char
  | .typed _ n => n
  | .countP l _ _ => l

/-- Well-formedness of a declaration: a known setter and names that are
non-empty and free of `"` and `(`. -/
def FlagDecl.wf : FlagDecl → Prop
  | .typed s n => s ∈ flagSetters ∧ goodName n
  | .countP l s ws => goodName l ∧ goodName s ∧ ∀ c ∈ ws, isSpaceCh c = true

instance (d : FlagDecl) : Decidable d.wf :=
  match d with
  | .typed _ _ => inferInstanceAs (Decidable (_ ∧ _))
  | .countP _ _ _ => inferInstanceAs (Decidable (_ ∧ _))

/-- The source text of one declaration. -/
def FlagDecl.render : FlagDecl → List Char
  | .typed s n => flagsPrefixLit ++ s ++ ['(', '\x22'] ++ n ++ ['\x22']
  | .countP l s ws => countPLit ++ l ++ '\x22' :: ',' :: ws ++ '\x22' :: s ++ ['\x22']

/-- A source text declaring the given flags, one declaration per line. -/
def renderDecls (ds : List FlagDecl) : List Char :=
  (ds.map (fun d => d.render ++ ['\n'])).flatten

lemma typed_render_shape (s n X : List Char) :
    (FlagDecl.typed s n).render ++ X =
      (flagsPrefixLit ++ s ++ ['(', '\x22']) ++ (n ++ '\x22' :: X) := by
  simp [FlagDecl.render]

lemma countP_render_shape (l s ws X : List Char) :
    (FlagDecl.countP l s ws).render ++ X =
      countPLit ++ (l ++ '\x22' :: ',' :: (ws ++ '\x22' :: (s ++ '\x22' :: X))) := by
  simp [FlagDecl.render]

lemma renderDecls_cons (d : FlagDecl) (ds : List FlagDecl) :
    renderDecls (d :: ds) = d.render ++ ('\n' :: renderDecls ds) := by
  simp [renderDecls]

/-! ## Each pattern's scan walks through the other pattern's declarations -/

lemma scanCountP_through_typed {setter n : List Char} (hs : setter ∈ flagSetters)
    (hn : goodName n) (rest : List Char) :
    scanAll tryCountP ((flagsPrefixLit ++ setter ++ ['(', '\x22']) ++
      (n ++ '\x22' :: rest)) = scanAll tryCountP rest := by
  rw [scanAll_skip_block
    (fun s r (h : mismatchAt countPLit s) =>
      tryCountP_none_of_dropLit (dropLit_none_of_mismatch h)) _ _ ?_]
  · rw [scan_through_name (fun suf r2 h => tryCountP_in_name h) hn.2]
    exact scanAll_skip (tryCountP_cons_ne (by decide))
  · intro x hsuf hne
    exact (by decide :
        ∀ a ∈ flagSetters, ∀ x ∈ (flagsPrefixLit ++ a ++ ['(', '\x22']).tails,
          x ≠ [] → mismatchAt countPLit x) setter hs x
      ((List.mem_tails _ _).mpr hsuf) hne

/-- Every setter literal mismatches the text at this position. -/
def AllSettersMismatch (s : List Char) : Prop :=
  ∀ a ∈ flagSetters, mismatchAt (flagsPrefixLit ++ a ++ ['(', '\x22']) s

instance (s : List Char) : Decidable (AllSettersMismatch s) :=
  inferInstanceAs (Decidable (∀ a ∈ flagSetters, _))

lemma scanTyped_through_countP {l s ws : List Char} (hl : goodName l)
    (hs : goodName s) (hws : ∀ c ∈ ws, isSpaceCh c = true) (rest : List Char) :
    scanAll tryFlagTyped (countPLit ++ (l ++ '\x22' :: ',' :: (ws ++ '\x22' ::
      (s ++ '\x22' :: rest)))) = scanAll tryFlagTyped rest := by
  rw [scanAll_skip_block
    (fun x r (h : AllSettersMismatch x) =>
      tryFlagTyped_eq_none (fun a ha =>
        trySetter_none_of_dropLit (dropLit_none_of_mismatch (h a ha)))) _ _
    (fun x hsuf hne =>
      (by decide : ∀ x ∈ countPLit.tails, x ≠ [] → AllSettersMismatch x) x
        ((List.mem_tails _ _).mpr hsuf) hne)]
  rw [scan_through_name (fun suf r2 h => tryFlagTyped_in_name h) hl.2]
  rw [scanAll_skip (tryFlagTyped_cons_ne (by decide))]
  rw [scanAll_skip (tryFlagTyped_cons_ne (by decide))]
  rw [scan_through_spaces
    (fun c t hc => tryFlagTyped_cons_ne (isSpaceCh_ne_dot hc)) hws]
  rw [scanAll_skip (tryFlagTyped_cons_ne (by decide))]
  rw [scan_through_name (fun suf r2 h => tryFlagTyped_in_name h) hs.2]
  exact scanAll_skip (tryFlagTyped_cons_ne (by decide))

/-! ## The two findall passes on a rendered declaration list -/

/-- The name declared by a typed declaration, if any. -/
def typedName? : FlagDecl → Option (List Char)
  | .typed _ n => some n
  | _ => none

/-- The long name declared by a CountP declaration, if any. -/
def countPName? : FlagDecl → Option (List Char)
  | .countP l _ _ => some l
  | _ => none

lemma scanTyped_renderDecls : ∀ {ds : List FlagDecl}, (∀ d ∈ ds, d.wf) →
    scanAll tryFlagTyped (renderDecls ds) = ds.filterMap typedName? := by
  intro ds
  induction ds with
  | nil => intro _; rfl
  | cons d t ih =>
    intro h
    have hd := h d (List.mem_cons_self d t)
    have ht := fun d2 hd2 => h d2 (List.mem_cons_of_mem d hd2)
    rw [renderDecls_cons]
    cases d with
    | typed s n =>
      obtain ⟨hs, hn⟩ := hd
      rw [typed_render_shape,
        scanAll_match tryFlagTyped_shrink (tryFlagTyped_render hs hn),
        scanAll_skip (tryFlagTyped_cons_ne (by decide)), ih ht]
      simp [typedName?]
    | countP l sh ws =>
      obtain ⟨hl, hsh, hws⟩ := hd
      rw [countP_render_shape, scanTyped_through_countP hl hsh hws,
        scanAll_skip (tryFlagTyped_cons_ne (by decide)), ih ht]
      simp [countPName?, typedName?]

lemma scanCountP_renderDecls : ∀ {ds : List FlagDecl}, (∀ d ∈ ds, d.wf) →
    scanAll tryCountP (renderDecls ds) = ds.filterMap countPName? := by
  intro ds
  induction ds with
  | nil => intro _; rfl
  | cons d t ih =>
    intro h
    have hd := h d (List.mem_cons_self d t)
    have ht := fun d2 hd2 => h d2 (List.mem_cons_of_mem d hd2)
    rw [renderDecls_cons]
    cases d with
    | typed s n =>
      obtain ⟨hs, hn⟩ := hd
      rw [typed_render_shape, scanCountP_through_typed hs hn,
        scanAll_skip (tryCountP_cons_ne (by decide)), ih ht]
      simp [countPName?]
    | countP l sh ws =>
      obtain ⟨hl, hsh, hws⟩ := hd
      rw [countP_render_shape,
        scanAll_match tryCountP_shrink (tryCountP_render hl hsh hws),
        scanAll_skip (tryCountP_cons_ne (by decide)), ih ht]
      simp [countPName?]

/-! ## Claim C2 -/

lemma filterMap_perm (ds : List FlagDecl) :
    (ds.filterMap typedName? ++ ds.filterMap countPName?).Perm
      (ds.map FlagDecl.flagName) := by
  induction ds with
  | nil => rfl
  | cons d t ih =>
    cases d with
    | typed s n =>
      simp only [List.filterMap_cons, typedName?, countPName?, List.map_cons,
        List.cons_append, FlagDecl.flagName]
      exact ih.cons n
    | countP l sh ws =>
      simp only [List.filterMap_cons, typedName?, countPName?, List.map_cons,
        FlagDecl.flagName]
      refine List.Perm.trans ?_ (ih.cons l)
      exact List.perm_middle

lemma extractFlags_renderDecls {ds : List FlagDecl} (h : ∀ d ∈ ds, d.wf) :
    extractFlags (renderDecls ds) = (ds.map FlagDecl.flagName).toFinset := by
  unfold extractFlags flagMatches
  rw [scanTyped_renderDecls h, scanCountP_renderDecls h]
  exact List.toFinset_eq_of_perm _ _ (filterMap_perm ds)

/-- Claim C2 amended: for every list of well-formed flag declarations
with pairwise-distinct names — where the tokens of a declaration must be
adjacent (whitespace is tolerated only between CountP's two string
arguments, matching the `\s*` in the second pattern) — the extractor
returns exactly N symbols, and the result is unchanged under any
permutation of the declarations. -/
theorem c2_amended (ds : List FlagDecl) (hwf : ∀ d ∈ ds, d.wf)
    (hnodup : (ds.map FlagDecl.flagName).Nodup) :
    (extractFlags (renderDecls ds)).card = ds.length ∧
    ∀ ds2 : List FlagDecl, ds2.Perm ds →
      extractFlags (renderDecls ds2) = extractFlags (renderDecls ds) := by
  constructor
  · rw [extractFlags_renderDecls hwf, List.toFinset_card_of_nodup hnodup,
      List.length_map]
  · intro ds2 hperm
    rw [extractFlags_renderDecls hwf,
      extractFlags_renderDecls (fun d hd => hwf d (hperm.mem_iff.mp hd))]
    exact List.toFinset_eq_of_perm _ _ (hperm.map _)

/-- Claim C2 counterexample: the claim tolerates whitespace between the
tokens of a declaration, but the first flag pattern does not: with a
single space before the parenthesis the declaration is missed entirely
(0 symbols instead of 1), while the same declaration without the space is
extracted. -/
theorem c2_counterexample :
    extractFlags ".Flags().String (\x22timeout\x22, \x22\x22, desc)".data = ∅ ∧
    extractFlags ".Flags().String(\x22timeout\x22, \x22\x22, desc)".data =
      {"timeout".data} := by
  constructor
  · decide
  · decide

/-- Concrete declaration list for the C2 witness. -/
def c2Decls : List FlagDecl :=
  [FlagDecl.typed setStr "timeout".data,
   FlagDecl.countP "verbosity".data "v".data [' ']]

/-- Witness for C2 amended at two concrete declarations. -/
theorem c2_amended_witness :
    (extractFlags (renderDecls c2Decls)).card = c2Decls.length :=
  (c2_amended c2Decls (by decide) (by decide)).1

/-! ## Claim C3 -/

/-- Source text of one `addMethod("<s>")` registration line. -/
def addRender (s : List Char) : List Char :=
  addMethodLit ++ '\x22' :: s ++ ['\x22', ')', '\n']

lemma addRender_shape (s X : List Char) :
    addRender s ++ X = addMethodLit ++ '\x22' :: (s ++ '\x22' :: ')' :: '\n' :: X) := by
  simp [addRender]

lemma scan_addRender {s rest : List Char} (hne : s ≠ [])
    (hq : ∀ c ∈ s, c ≠ '\x22') :
    scanAll tryAddMethod (addRender s ++ rest) = s :: scanAll tryAddMethod rest := by
  rw [addRender_shape,
    scanAll_match tryAddMethod_shrink (tryAddMethod_render hne hq),
    scanAll_skip (tryAddMethod_cons_ne (by decide)),
    scanAll_skip (tryAddMethod_cons_ne (by decide))]

/-- Claim C3: two registration strings sharing a base name and differing
only in the text from the first `(` onward produce a raw match set of
size 2 and a deduplicated base-name set of size 1; both counts are what
`check_cheatcodes` reports. -/
theorem c3_overload_dedup (b r1 r2 : List Char) (_hb : b ≠ [])
    (hbp : '(' ∉ b) (hbq : '\x22' ∉ b) (h1 : '\x22' ∉ r1) ( h2 : '\x22' ∉ r2)
    (hne : r1 ≠ r2) :
    (extractCheatcodesSet (addRender (b ++ '(' :: r1) ++
        addRender (b ++ '(' :: r2))).card = 2 ∧
    (baseMethodSet (addRender (b ++ '(' :: r1) ++
        addRender (b ++ '(' :: r2))).card = 1 := by
  have hq1 : ∀ c ∈ b ++ '(' :: r1, c ≠ '\x22' := by
    intro c hc
    rcases List.mem_append.mp hc with hc | hc
    · exact fun he => hbq (he ▸ hc)
    · rcases List.mem_cons.mp hc with rfl | hc
      · decide
      · exact fun he => h1 (he ▸ hc)
  have hq2 : ∀ c ∈ b ++ '(' :: r2, c ≠ '\x22' := by
    intro c hc
    rcases List.mem_append.mp hc with hc | hc
    · exact fun he => hbq (he ▸ hc)
    · rcases List.mem_cons.mp hc with rfl | hc
      · decide
      · exact fun he => h2 (he ▸ hc)
  have hne1 : b ++ '(' :: r1 ≠ [] := by simp
  have hne2 : b ++ '(' :: r2 ≠ [] := by simp
  have hmatches : cheatcodeMatches (addRender (b ++ '(' :: r1) ++
      addRender (b ++ '(' :: r2)) = [b ++ '(' :: r1, b ++ '(' :: r2] := by
    unfold cheatcodeMatches
    rw [scan_addRender hne1 hq1]
    rw [show addRender (b ++ '(' :: r2) =
      addRender (b ++ '(' :: r2) ++ [] by simp]
    rw [scan_addRender hne2 hq2]
    rfl
  have hsne : b ++ '(' :: r1 ≠ b ++ '(' :: r2 := by
    intro hc
    apply hne
    have := List.append_cancel_left hc
    injection this
  have hbase : ∀ r : List Char, baseName (b ++ '(' :: r) = b := by
    intro r
    unfold baseName
    rw [takeWhile_app (p := fun c => c != '(') ?_ (by decide)]
    intro c hc
    simp only [bne_iff_ne, ne_eq]
    exact fun he => hbp (he ▸ hc)
  constructor
  · rw [extractCheatcodesSet, hmatches,
      List.toFinset_card_of_nodup (by simp [hsne])]
    rfl
  · rw [baseMethodSet, extractCheatcodesSet, hmatches]
    simp only [List.toFinset_cons, List.toFinset_nil,
      Finset.image_insert, Finset.image_singleton, hbase]
    simp

/-- Witness for C3 at the overloads `toString(address)` and
`toString(uint256)`. -/
theorem c3_overload_dedup_witness :
    (extractCheatcodesSet (addRender ("toString".data ++ '(' :: "address)".data) ++
        addRender ("toString".data ++ '(' :: "uint256)".data))).card = 2 ∧
    (baseMethodSet (addRender ("toString".data ++ '(' :: "address)".data) ++
        addRender ("toString".data ++ '(' :: "uint256)".data))).card = 1 :=
  c3_overload_dedup "toString".data "address)".data "uint256)".data
    (by decide) (by decide) (by decide) (by decide) (by decide) (by decide)

/-! ## Claim C7 -/

/-- Claim C7 amended: whenever a validation step runs against an absent
documentation file, exactly one Error about the missing file is appended
and no per-symbol Errors are produced — for all three symbol kinds.  (For
config pairings the orchestrator skips validation entirely when the
extracted field mapping is empty, appending nothing; see the
counterexample.) -/
theorem c7_missing_doc (fs : FS) (st : St) :
    (∀ flags command docFile, readFS fs docFile = none →
      (validateFlagsDocumented fs flags command docFile st).errors =
        st.errors ++ [Diag.docNotFound docFile]) ∧
    (readFS fs cheatDocPath = none → ∀ bases,
      (validateCheatcodes fs bases st).errors =
        st.errors ++ [Diag.cheatDocNotFound]) ∧
    (∀ fields docFile, readFS fs docFile = none →
      (validateConfigFields fs fields docFile st).errors =
        st.errors ++ [Diag.configDocNotFound docFile]) := by
  refine ⟨?_, ?_, ?_⟩
  · intro flags command docFile h
    unfold validateFlagsDocumented
    rw [h]
  · intro h bases
    unfold validateCheatcodes
    rw [h]
  · intro fields docFile h
    unfold validateConfigFields
    rw [h]

/-- Filesystem for the C7 counterexample: only the first config source
exists, with empty content; every documentation file is absent. -/
def c7FS : FS := [("fuzzing/config/config.go".data, [])]

/-- Claim C7 counterexample: the config pairing for
`docs/src/project_configuration/fuzzing_config.md` has an absent
documentation file, yet `check_config_fields` appends no Error at all
(the extracted field dict is empty, so `if fields:` skips validation);
only the two missing-source Warnings are recorded. -/
theorem c7_counterexample :
    readFS c7FS "docs/src/project_configuration/fuzzing_config.md".data =
        none ∧
      (checkConfigFields c7FS ⟨[], []⟩).errors = [] ∧
      (checkConfigFields c7FS ⟨[], []⟩).warnings =
        [Diag.configSrcNotFound "chain/config/config.go".data,
         Diag.configSrcNotFound "compilation/compilation_config.go".data] := by
  refine ⟨rfl, ?_, ?_⟩
  · decide
  · decide

/-- Witness for C7 amended, applied at an empty filesystem. -/
theorem c7_missing_doc_witness :
    (validateFlagsDocumented [] ["timeout".data] "fuzz".data
        "docs/src/cli/fuzz.md".data ⟨[], []⟩).errors =
      [Diag.docNotFound "docs/src/cli/fuzz.md".data] :=
  (c7_missing_doc [] ⟨[], []⟩).1 ["timeout".data] "fuzz".data
    "docs/src/cli/fuzz.md".data rfl

end CheckDocs
